import Mathlib

/-!
Verification of the meta-d-prime SDT fitting module (`Code/sdt.py`).

Modelling conventions:
* Real-valued float arithmetic is embedded as arithmetic over an arbitrary
  `LinearOrderedField` (instantiated at `ℚ` for concrete evaluations and at
  `ℝ` when convenient), treating floats as ideal numbers.
* The points `±inf` that the code stores inside criterion arrays are embedded
  by the type `XR` (an explicit two-point extension of the scalar field).
* Where the code's behaviour on non-finite IEEE values matters (the
  `np.isinf/np.isnan` guard of `fit_meta_d_logL`, the `meta_da / da` division
  of the result packager, `norm.ppf` at 0 or 1), values are embedded by
  `XFloat`, which tracks the IEEE value class (finite, `±inf`, `nan`) with an
  ideal scalar as the finite part; its operations follow the IEEE
  propagation rules used by numpy scalars.
* The injected `fncdf` / `fninv` / `np.log` / `np.sqrt` capabilities are
  function parameters, mirroring the code's pluggable design.
-/

/-- Scalar field extended with the two infinite sentinels that the Python code
stores in lists via `np.inf` (`XR.posInf`) and `-np.inf` (`XR.negInf`). -/
inductive XR (α : Type) where
  | negInf : XR α
  | fin : α → XR α
  | posInf : XR α
deriving DecidableEq

/-- Order on `XR`: `negInf` below everything, `posInf` above everything,
finite points ordered as in the field. -/
def XR.le {α : Type} [LE α] : XR α → XR α → Prop
  | .negInf, _ => True
  | _, .posInf => True
  | .fin a, .fin b => a ≤ b
  | _, _ => False

/-- IEEE value classes of a numpy float64 scalar: a finite value (with its
ideal numeric value), a signed infinity (`inf true` is `+inf`), or `nan`. -/
inductive XFloat (α : Type) where
  | fin : α → XFloat α
  | inf : Bool → XFloat α
  | nan : XFloat α
deriving DecidableEq

namespace XFloat

variable {α : Type} [LinearOrderedField α]

/-- IEEE addition on value classes (`inf + -inf = nan`, `nan` propagates). -/
def xadd : XFloat α → XFloat α → XFloat α
  | .nan, _ => .nan
  | _, .nan => .nan
  | .fin a, .fin b => .fin (a + b)
  | .fin _, .inf b => .inf b
  | .inf b, .fin _ => .inf b
  | .inf b, .inf c => if b = c then .inf b else .nan

/-- IEEE negation on value classes. -/
def xneg : XFloat α → XFloat α
  | .fin a => .fin (-a)
  | .inf b => .inf (!b)
  | .nan => .nan

/-- IEEE subtraction on value classes. -/
def xsub (x y : XFloat α) : XFloat α := xadd x (xneg y)

/-- IEEE multiplication on value classes (`0 * inf = nan`, `nan` propagates). -/
def xmul : XFloat α → XFloat α → XFloat α
  | .nan, _ => .nan
  | _, .nan => .nan
  | .fin a, .fin b => .fin (a * b)
  | .fin a, .inf b => if a = 0 then .nan else if 0 < a then .inf b else .inf (!b)
  | .inf b, .fin a => if a = 0 then .nan else if 0 < a then .inf b else .inf (!b)
  | .inf b, .inf c => .inf (b == c)

/-- IEEE division of two finite values: numpy gives `nan` for `0/0` and a
signed infinity for `x/0` with `x ≠ 0`; otherwise the exact quotient. -/
def fdiv (a b : α) : XFloat α :=
  if b = 0 then (if a = 0 then .nan else if 0 < a then .inf true else .inf false)
  else .fin (a / b)

/-- IEEE division on value classes. -/
def xdiv : XFloat α → XFloat α → XFloat α
  | .nan, _ => .nan
  | _, .nan => .nan
  | .fin a, .fin b => fdiv a b
  | .fin _, .inf _ => .fin 0
  | .inf b, .fin a => if 0 ≤ a then .inf b else .inf (!b)
  | .inf _, .inf _ => .nan

/-- IEEE logarithm on value classes; `logf` is the ideal logarithm used on
strictly positive finite values (`np.log`: `log 0 = -inf`, `log x = nan` for
`x < 0`, `log (+inf) = +inf`, `log (-inf) = nan`). -/
def xlog (logf : α → α) : XFloat α → XFloat α
  | .fin a => if a = 0 then .inf false else if a < 0 then .nan else .fin (logf a)
  | .inf true => .inf true
  | .inf false => .nan
  | .nan => .nan

/-- `np.isinf` on value classes. -/
def xisinf : XFloat α → Bool
  | .inf _ => true
  | _ => false

/-- `np.isnan` on value classes. -/
def xisnan : XFloat α → Bool
  | .nan => true
  | _ => false

/-- A value class is finite when it is neither an infinity nor `nan`. -/
def isFinite : XFloat α → Bool
  | .fin _ => true
  | _ => false

end XFloat

open XFloat

section Tabulation

/-- In-range test of `trials2counts` (line 137 of `sdt.py`): a trial record is
kept when `stimID ∈ {0,1}`, `response ∈ {0,1}` and `1 ≤ rating ≤ nRatings`. -/
def inRange (nRatings : ℕ) (t : ℤ × ℤ × ℤ) : Bool :=
  decide ((t.1 = 0 ∨ t.1 = 1) ∧ (t.2.1 = 0 ∨ t.2.1 = 1) ∧
    (1 ≤ t.2.2 ∧ t.2.2 ≤ (nRatings : ℤ)))

/-- The descending rating values `nRatings, nRatings-1, ..., 1` iterated by the
first counting loop (`range(nRatings, 0, -1)`). -/
def descRatings (nRatings : ℕ) : List ℤ :=
  (List.range nRatings).map (fun k : ℕ => (nRatings : ℤ) - (k : ℤ))

/-- The ascending rating values `1, 2, ..., nRatings` iterated by the second
counting loop (`range(1, nRatings+1, 1)`). -/
def ascRatings (nRatings : ℕ) : List ℤ :=
  (List.range nRatings).map (fun k : ℕ => (k : ℤ) + 1)

/-- Number of filtered records with the given stimulus, response and rating
(the inner counting loops of `trials2counts`). -/
def countsFor (l : List (ℤ × ℤ × ℤ)) (s rp r : ℤ) : ℕ :=
  l.countP (fun t => decide (t.1 = s ∧ t.2.1 = rp ∧ t.2.2 = r))

/-- The `nR_S1` output of `trials2counts` before padding: counts of `stimID=0`
records, first for `response=0` over descending ratings, then for `response=1`
over ascending ratings. -/
def nRS1core (l : List (ℤ × ℤ × ℤ)) (nRatings : ℕ) : List ℕ :=
  (descRatings nRatings).map (countsFor l 0 0) ++
    (ascRatings nRatings).map (countsFor l 0 1)

/-- The `nR_S2` output of `trials2counts` before padding: counts of `stimID=1`
records in the same ordering. -/
def nRS2core (l : List (ℤ × ℤ × ℤ)) (nRatings : ℕ) : List ℕ :=
  (descRatings nRatings).map (countsFor l 1 0) ++
    (ascRatings nRatings).map (countsFor l 1 1)

/-- Embedding of `trials2counts` (lines 130-177 of `sdt.py`).  The length check
raises exactly when `len(stimID) != len(response)` and
`len(stimID) == len(rating)` (the code's `not` binds only to the first
equality).  Python's `zip` truncates to the shortest input, embedded by nested
`List.zip`.  Counts are naturals, padded into the field `ℚ` when `padCells`. -/
def trials2counts (stimID response rating : List ℤ) (nRatings : ℕ)
    (padCells : Bool) (padAmount : Option ℚ) : Except String (List ℚ × List ℚ) :=
  if ¬(stimID.length = response.length) ∧ (stimID.length = rating.length) then
    Except.error "Input vectors must have the same lengths"
  else
    let records := stimID.zip (response.zip rating)
    let filtered := records.filter (inRange nRatings)
    let pad : ℚ := padAmount.getD (1 / (2 * (nRatings : ℚ)))
    let n1 := nRS1core filtered nRatings
    let n2 := nRS2core filtered nRatings
    if padCells then
      Except.ok (n1.map (fun n : ℕ => (n : ℚ) + pad),
        n2.map (fun n : ℕ => (n : ℚ) + pad))
    else
      Except.ok (n1.map (fun n : ℕ => (n : ℚ)), n2.map (fun n : ℕ => (n : ℚ)))

/-- Whether a `trials2counts` run raised. -/
def isErr {ε δ : Type} : Except ε δ → Bool
  | .error _ => true
  | .ok _ => false

end Tabulation

section Dprime

variable {α : Type} [LinearOrderedField α]

/-- The hit-rate adjustment of `dprime` (lines 29-37 of `sdt.py`): the raw
rate `hits/(hits+misses)`, then two sequential `if` substitutions using
`half_hit = 0.5*(hits+misses)` (the *count* halved, as written in the code). -/
def hitRateAdj (hits misses : α) : α :=
  let half_hit := (1 / 2) * (hits + misses)
  let hr0 := hits / (hits + misses)
  let hr1 := if hr0 = 1 then 1 - half_hit else hr0
  if hr1 = 0 then half_hit else hr1

/-- The false-alarm-rate adjustment of `dprime` (lines 30-44 of `sdt.py`). -/
def faRateAdj (fas crs : α) : α :=
  let half_fa := (1 / 2) * (fas + crs)
  let fa0 := fas / (fas + crs)
  let fa1 := if fa0 = 1 then 1 - half_fa else fa0
  if fa1 = 0 then half_fa else fa1

/-- Embedding of `dprime` (lines 8-49 of `sdt.py`); `ppf` is the injected
inverse CDF `norm.ppf`. -/
def dprime (hits misses fas crs : α) (ppf : α → α) : α :=
  ppf (hitRateAdj hits misses) - ppf (faRateAdj fas crs)

end Dprime

section Likelihood

variable {α : Type} [LinearOrderedField α]

/-- The string-evaluated constant criterion `meta_d1 * (t1c1 / d1)` of
`fit_meta_d_MLE` / `fit_meta_d_logL` (line 442 of `sdt.py`). -/
def constantCriterion (meta_d1 d1 t1c1 : α) : α := meta_d1 * (t1c1 / d1)

/-- The padded criterion array `t2c1x` of `fit_meta_d_logL` (lines 228-232 of
`sdt.py`): `-inf`, the criteria below the type-1 criterion, the type-1
criterion itself (set to `0` on line 210), the criteria above, `+inf`. -/
def t2c1xL (nRatings : ℕ) (t2c1 : List α) : List (XR α) :=
  [XR.negInf] ++ (t2c1.take (nRatings - 1)).map XR.fin ++ [XR.fin 0] ++
    (t2c1.drop (nRatings - 1)).map XR.fin ++ [XR.posInf]

/-- The model bin probabilities for `S1` responses (lines 234-235 of
`sdt.py`), as ideal field values: bin `i` has probability
`(F(t2c1x[i+1]) - F(t2c1x[i])) / F(0)` under the distribution `(mu, sd)`.
Instantiated at `(S1mu, S1sd)` this is `prC_rS1`, at `(S2mu, S2sd)` it is
`prI_rS1`. -/
def prRS1 (F : XR α → α → α → α) (nRatings : ℕ) (t2c1 : List α)
    (mu sd : α) : List α :=
  (List.range nRatings).map (fun i =>
    (F ((t2c1xL nRatings t2c1).getD (i + 1) XR.posInf) mu sd -
      F ((t2c1xL nRatings t2c1).getD i XR.posInf) mu sd) / F (XR.fin 0) mu sd)

/-- The model bin probabilities for `S2` responses (lines 237-238 of
`sdt.py`): bin `i` has probability
`((1 - F(t2c1x[nRatings+i])) - (1 - F(t2c1x[nRatings+i+1]))) / (1 - F(0))`.
Instantiated at `(S2mu, S2sd)` this is `prC_rS2`, at `(S1mu, S1sd)` it is
`prI_rS2`. -/
def prRS2 (F : XR α → α → α → α) (nRatings : ℕ) (t2c1 : List α)
    (mu sd : α) : List α :=
  (List.range nRatings).map (fun i =>
    ((1 - F ((t2c1xL nRatings t2c1).getD (nRatings + i) XR.posInf) mu sd) -
      (1 - F ((t2c1xL nRatings t2c1).getD (nRatings + i + 1) XR.posInf) mu sd)) /
        (1 - F (XR.fin 0) mu sd))

/-- The four probability vectors `(prC_rS1, prI_rS1, prC_rS2, prI_rS2)` that
`fit_meta_d_logL` reconstructs from a parameter vector (lines 193-238 of
`sdt.py`), with the means shifted by the constant criterion (lines 199-208)
and the type-1 criterion at `0`. -/
def fitMetaDprobs (F : XR α → α → α → α) (nRatings : ℕ) (parameters : List α)
    (d1 t1c1 s : α) : List α × List α × List α × List α :=
  let meta_d1 := parameters.getD 0 0
  let t2c1 := parameters.drop 1
  let cc := constantCriterion meta_d1 d1 t1c1
  let S1mu := -meta_d1 / 2 - cc
  let S2mu := meta_d1 / 2 - cc
  let S1sd : α := 1
  let S2sd := S1sd / s
  (prRS1 F nRatings t2c1 S1mu S1sd, prRS1 F nRatings t2c1 S2mu S2sd,
    prRS2 F nRatings t2c1 S2mu S2sd, prRS2 F nRatings t2c1 S1mu S1sd)

/-- The summands of the log-likelihood of `fit_meta_d_logL` (lines 241-245 of
`sdt.py`), in IEEE value-class arithmetic: term `i` is
`nC_rS1[i]*log(prC_rS1[i]) + nI_rS1[i]*log(prI_rS1[i]) +
 nC_rS2[i]*log(prC_rS2[i]) + nI_rS2[i]*log(prI_rS2[i])`, where the counts are
taken from `nR_S1`/`nR_S2` as on lines 215-219 and each bin probability is the
IEEE quotient of the CDF difference by the branch area. -/
def metaDlogLterms (F : XR α → α → α → α) (logf : α → α) (parameters : List α)
    (nR_S1 nR_S2 : List α) (nRatings : ℕ) (d1 t1c1 s : α) : List (XFloat α) :=
  let meta_d1 := parameters.getD 0 0
  let t2c1 := parameters.drop 1
  let cc := constantCriterion meta_d1 d1 t1c1
  let S1mu := -meta_d1 / 2 - cc
  let S2mu := meta_d1 / 2 - cc
  let S1sd : α := 1
  let S2sd := S1sd / s
  let xs := t2c1xL nRatings t2c1
  let prC_rS1 := fun i => fdiv
    (F (xs.getD (i + 1) XR.posInf) S1mu S1sd - F (xs.getD i XR.posInf) S1mu S1sd)
    (F (XR.fin 0) S1mu S1sd)
  let prI_rS1 := fun i => fdiv
    (F (xs.getD (i + 1) XR.posInf) S2mu S2sd - F (xs.getD i XR.posInf) S2mu S2sd)
    (F (XR.fin 0) S2mu S2sd)
  let prC_rS2 := fun i => fdiv
    ((1 - F (xs.getD (nRatings + i) XR.posInf) S2mu S2sd) -
      (1 - F (xs.getD (nRatings + i + 1) XR.posInf) S2mu S2sd))
    (1 - F (XR.fin 0) S2mu S2sd)
  let prI_rS2 := fun i => fdiv
    ((1 - F (xs.getD (nRatings + i) XR.posInf) S1mu S1sd) -
      (1 - F (xs.getD (nRatings + i + 1) XR.posInf) S1mu S1sd))
    (1 - F (XR.fin 0) S1mu S1sd)
  (List.range nRatings).map (fun i =>
    xadd (xadd (xadd
      (xmul (.fin (nR_S1.getD i 0)) (xlog logf (prC_rS1 i)))
      (xmul (.fin (nR_S2.getD i 0)) (xlog logf (prI_rS1 i))))
      (xmul (.fin (nR_S2.getD (i + nRatings) 0)) (xlog logf (prC_rS2 i))))
      (xmul (.fin (nR_S1.getD (i + nRatings) 0)) (xlog logf (prI_rS2 i))))

/-- The raw log-likelihood `logL = np.sum([...])` of `fit_meta_d_logL`
(line 241 of `sdt.py`), before the non-finiteness guard. -/
def metaDlogLraw (F : XR α → α → α → α) (logf : α → α) (parameters : List α)
    (nR_S1 nR_S2 : List α) (nRatings : ℕ) (d1 t1c1 s : α) : XFloat α :=
  (metaDlogLterms F logf parameters nR_S1 nR_S2 nRatings d1 t1c1 s).foldl
    xadd (.fin 0)

/-- Embedding of `fit_meta_d_logL` (lines 180-250 of `sdt.py`): the raw
log-likelihood, replaced by the finite `-1e300` when infinite or `nan`
(lines 247-249), then negated. -/
def fit_meta_d_logL (F : XR α → α → α → α) (logf : α → α) (parameters : List α)
    (nR_S1 nR_S2 : List α) (nRatings : ℕ) (d1 t1c1 s : α) : XFloat α :=
  let logL := metaDlogLraw F logf parameters nR_S1 nR_S2 nRatings d1 t1c1 s
  xneg (if xisinf logL || xisnan logL then .fin (-((10 : α) ^ 300)) else logL)

end Likelihood

section Constraints

variable {α : Type} [LinearOrderedField α]

/-- The linear inequality matrix `A` of `fit_meta_d_MLE` (lines 417-425 of
`sdt.py`): for `ii` in `range(nCriteria-2)`, the row
`zeros(ii+1) ++ [1, -1] ++ zeros(nCriteria-2-ii-1)`. -/
def constraintA (nCriteria : ℕ) : List (List α) :=
  (List.range (nCriteria - 2)).map (fun ii =>
    List.replicate (ii + 1) (0 : α) ++ [1, -1] ++
      List.replicate ((nCriteria - 2) - ii - 1) 0)

/-- The upper bounds `ub` of the linear constraints (line 426 of `sdt.py`):
`-1e-5` for every row. -/
def constraintUb (nCriteria : ℕ) : List α :=
  List.replicate (nCriteria - 2) (-(1 / 100000))

/-- The lower bounds `lb` of the linear constraints (line 427 of `sdt.py`):
`-np.inf` for every row. -/
def constraintLb (nCriteria : ℕ) : List (XR α) :=
  List.replicate (nCriteria - 2) XR.negInf

/-- The box lower bounds `LB` on the parameter vector (lines 430-433 of
`sdt.py`): `-10` for meta-d, then `-20` for each criterion below the type-1
criterion, then `0` for each criterion above. -/
def paramLB (nCriteria : ℕ) : List α :=
  -10 :: (List.replicate ((nCriteria - 1) / 2) (-20) ++
    List.replicate ((nCriteria - 1) / 2) 0)

/-- The box upper bounds `UB` on the parameter vector (lines 436-439 of
`sdt.py`): `10` for meta-d, then `0` for each criterion below the type-1
criterion, then `20` for each criterion above. -/
def paramUB (nCriteria : ℕ) : List α :=
  10 :: (List.replicate ((nCriteria - 1) / 2) 0 ++
    List.replicate ((nCriteria - 1) / 2) 20)

end Constraints

section InitialEstimate

variable {α : Type} [LinearOrderedField α]

/-- The cumulative rating hit rates of `fit_meta_d_MLE` (lines 447-448 of
`sdt.py`): for `c` in `range(1, 2*nRatings)`, `sum(nR_S2[c:]) / sum(nR_S2)`.
No boundary adjustment is applied to these ratios. -/
def ratingHR (nR_S2 : List α) (nRatings : ℕ) : List α :=
  (List.range (2 * nRatings - 1)).map (fun k =>
    (nR_S2.drop (k + 1)).sum / nR_S2.sum)

/-- The cumulative rating false-alarm rates of `fit_meta_d_MLE` (lines 447-449
of `sdt.py`): for `c` in `range(1, 2*nRatings)`, `sum(nR_S1[c:]) / sum(nR_S1)`.
No boundary adjustment is applied to these ratios. -/
def ratingFAR (nR_S1 : List α) (nRatings : ℕ) : List α :=
  (List.range (2 * nRatings - 1)).map (fun k =>
    (nR_S1.drop (k + 1)).sum / nR_S1.sum)

/-- The non-type-1 criterion indices `t2_index` (line 453 of `sdt.py`):
`{0, ..., 2*nRatings-2}` without `t1_index = nRatings-1`, ascending. -/
def t2Index (nRatings : ℕ) : List ℕ :=
  (List.range (2 * nRatings - 1)).filter (fun j => j ≠ nRatings - 1)

/-- The initial type-1 sensitivity `d1` of `fit_meta_d_MLE` (line 455 of
`sdt.py`): `(1/s) * fninv(ratingHR[t1_index]) - fninv(ratingFAR[t1_index])`,
in IEEE value-class arithmetic since `norm.ppf` is infinite at 0 and 1. -/
def metaMLEd1 (fninv : α → XFloat α) (nR_S1 nR_S2 : List α) (nRatings : ℕ)
    (s : α) : XFloat α :=
  xsub (xmul (.fin (1 / s)) (fninv ((ratingHR nR_S2 nRatings).getD (nRatings - 1) 0)))
    (fninv ((ratingFAR nR_S1 nRatings).getD (nRatings - 1) 0))

/-- The symmetric criteria `c1` of `fit_meta_d_MLE` (line 458 of `sdt.py`):
`(-1/(1+s)) * (fninv(ratingHR) + fninv(ratingFAR))`, elementwise. -/
def metaMLEc1 (fninv : α → XFloat α) (nR_S1 nR_S2 : List α) (nRatings : ℕ)
    (s : α) : List (XFloat α) :=
  (List.range (2 * nRatings - 1)).map (fun k =>
    xmul (.fin (-1 / (1 + s)))
      (xadd (fninv ((ratingHR nR_S2 nRatings).getD k 0))
        (fninv ((ratingFAR nR_S1 nRatings).getD k 0))))

/-- The initial guess of `fit_meta_d_MLE` (lines 455-464 of `sdt.py`):
`[meta_d1] ++ (t2c1 - eval(constant_criterion))` with `meta_d1 = d1`,
`t1c1 = c1[t1_index]`, `t2c1 = c1[t2_index]`, in IEEE value-class
arithmetic. -/
def metaMLEguess (fninv : α → XFloat α) (nR_S1 nR_S2 : List α) (nRatings : ℕ)
    (s : α) : List (XFloat α) :=
  let d1 := metaMLEd1 fninv nR_S1 nR_S2 nRatings s
  let meta_d1 := d1
  let c1 := metaMLEc1 fninv nR_S1 nR_S2 nRatings s
  let t1c1 := c1.getD (nRatings - 1) (.fin 0)
  let t2c1 := (t2Index nRatings).map (fun j => c1.getD j (.fin 0))
  let cc := xmul meta_d1 (xdiv t1c1 d1)
  meta_d1 :: t2c1.map (fun c => xsub c cc)

end InitialEstimate

section Packaging

variable {α : Type} [LinearOrderedField α]

/-- The scalar summary fields of the `fit` dictionary returned by
`fit_meta_d_MLE` that claims speak about. -/
structure FitResult (α : Type) where
  da : α
  s : α
  meta_da : α
  Mdiff : α
  Mratio : XFloat α

/-- `fit['da'] = np.sqrt(2/(1+s**2)) * s * d1` (line 542 of `sdt.py`);
`sqrtf` is the injected ideal square root. -/
def daFit (sqrtf : α → α) (s d1 : α) : α := sqrtf (2 / (1 + s ^ 2)) * s * d1

/-- `fit['meta_da'] = np.sqrt(2/(1+s**2)) * s * meta_d1` (line 546 of
`sdt.py`). -/
def metaDaFit (sqrtf : α → α) (s meta_d1 : α) : α :=
  sqrtf (2 / (1 + s ^ 2)) * s * meta_d1

/-- The packaging of the optimized parameters into the summary fields
(lines 541-550 of `sdt.py`): `M_diff = meta_da - da` is an ideal subtraction
of finite floats, while `M_ratio = meta_da / da` is an IEEE division, which
numpy evaluates to `nan` or a signed infinity when `da = 0`. -/
def packageFit (sqrtf : α → α) (s d1 meta_d1 : α) : FitResult α :=
  { da := daFit sqrtf s d1
    s := s
    meta_da := metaDaFit sqrtf s meta_d1
    Mdiff := metaDaFit sqrtf s meta_d1 - daFit sqrtf s d1
    Mratio := fdiv (metaDaFit sqrtf s meta_d1) (daFit sqrtf s d1) }

end Packaging

section ConcreteCapabilities

/-- A step "CDF" on `ℚ`: `0` strictly below `5`, `1` from `5` on, for every
`(mu, sd)`.  It is monotone and has the limits `0` at `-inf` and `1` at
`+inf`, but vanishes at the type-1 criterion. -/
def stepCdf : XR ℚ → ℚ → ℚ → ℚ
  | .negInf, _, _ => 0
  | .posInf, _, _ => 1
  | .fin x, _, _ => if x < 5 then 0 else 1

/-- A "CDF" on `ℚ` that is `1/2` at every finite point, `0` at `-inf` and `1`
at `+inf`, for every `(mu, sd)`. -/
def halfCdf : XR ℚ → ℚ → ℚ → ℚ
  | .negInf, _, _ => 0
  | .posInf, _, _ => 1
  | .fin _, _, _ => 1 / 2

/-- An inverse-CDF on `ℚ` with the finiteness profile of `norm.ppf`:
`-inf` at or below `0`, `+inf` at or above `1`, finite (here `0`) strictly
inside `(0, 1)`. -/
def ppfStep : ℚ → XFloat ℚ := fun p =>
  if p ≤ 0 then .inf false else if 1 ≤ p then .inf true else .fin 0

/-- An inverse-CDF on `ℚ` that is finite (with value `p`) strictly inside
`(0, 1)` and `nan` elsewhere. -/
def ppfInterior : ℚ → XFloat ℚ := fun p =>
  if 0 < p ∧ p < 1 then .fin p else .nan

end ConcreteCapabilities

theorem getD_replicate_of_lt {α : Type} (a d : α) {n i : ℕ} (h : i < n) :
    (List.replicate n a).getD i d = a := by
  rw [List.getD_eq_getElem _ _ (by simpa using h)]
  simp

theorem getD_map_range {β : Type} (f : ℕ → β) {n i : ℕ} (d : β) (h : i < n) :
    ((List.range n).map f).getD i d = f i := by
  rw [List.getD_eq_getElem _ _ (by simpa using h)]
  simp

theorem sum_range_sub_telescope {α : Type} [AddCommGroup α] (g : ℕ → α) (n : ℕ) :
    ((List.range n).map (fun i => g (i + 1) - g i)).sum = g n - g 0 := by
  induction n with
  | zero => simp
  | succ n ih =>
    rw [List.range_succ, List.map_append, List.sum_append, ih]
    simp

theorem sum_range_sub_telescope_rev {α : Type} [AddCommGroup α] (g : ℕ → α) (n : ℕ) :
    ((List.range n).map (fun i => g i - g (i + 1))).sum = g 0 - g n := by
  induction n with
  | zero => simp
  | succ n ih =>
    rw [List.range_succ, List.map_append, List.sum_append, ih]
    simp

theorem t2c1xL_getD_zero {α : Type} [LinearOrderedField α] (K : ℕ) (t2c1 : List α) :
    (t2c1xL K t2c1).getD 0 XR.posInf = XR.negInf := by
  simp [t2c1xL]

theorem t2c1xL_getD_mid {α : Type} [LinearOrderedField α] (K : ℕ) (t2c1 : List α)
    (hlen : t2c1.length = 2 * K - 2) (hK : 1 ≤ K) :
    (t2c1xL K t2c1).getD K XR.posInf = XR.fin 0 := by
  have h1 : ([XR.negInf] ++ (t2c1.take (K - 1)).map (XR.fin (α := α))).length = K := by
    simp [List.length_take, hlen]
    omega
  unfold t2c1xL
  rw [List.getD_append _ _ _ _ (by simp [List.length_take, List.length_drop, hlen]; omega)]
  rw [List.getD_append _ _ _ _ (by simp [List.length_take, hlen]; omega)]
  rw [List.getD_append_right _ _ _ _ h1.le]
  rw [h1]
  simp

theorem t2c1xL_getD_last {α : Type} [LinearOrderedField α] (K : ℕ) (t2c1 : List α)
    (hlen : t2c1.length = 2 * K - 2) (hK : 1 ≤ K) :
    (t2c1xL K t2c1).getD (2 * K) XR.posInf = XR.posInf := by
  have hX : ([XR.negInf] ++ (t2c1.take (K - 1)).map (XR.fin (α := α)) ++ [XR.fin 0] ++
      (t2c1.drop (K - 1)).map XR.fin).length = 2 * K := by
    simp [List.length_take, List.length_drop, hlen]
    omega
  unfold t2c1xL
  rw [List.getD_append_right _ _ _ _ hX.le]
  rw [hX]
  simp

theorem prRS1_sum {α : Type} [LinearOrderedField α] (F : XR α → α → α → α) (K : ℕ)
    (t2c1 : List α) (mu sd : α) (hlen : t2c1.length = 2 * K - 2) (hK : 1 ≤ K)
    (hneg : F XR.negInf mu sd = 0) (harea : F (XR.fin 0) mu sd ≠ 0) :
    (prRS1 F K t2c1 mu sd).sum = 1 := by
  unfold prRS1
  simp only [sub_div]
  rw [sum_range_sub_telescope
    (fun i => F ((t2c1xL K t2c1).getD i XR.posInf) mu sd / F (XR.fin 0) mu sd) K]
  rw [t2c1xL_getD_mid K t2c1 hlen hK, t2c1xL_getD_zero K t2c1, hneg]
  rw [div_self harea]
  simp

theorem prRS2_sum {α : Type} [LinearOrderedField α] (F : XR α → α → α → α) (K : ℕ)
    (t2c1 : List α) (mu sd : α) (hlen : t2c1.length = 2 * K - 2) (hK : 1 ≤ K)
    (hpos : F XR.posInf mu sd = 1) (harea : 1 - F (XR.fin 0) mu sd ≠ 0) :
    (prRS2 F K t2c1 mu sd).sum = 1 := by
  unfold prRS2
  rw [List.map_congr_left (fun i _ => by
    simp only [sub_div, Nat.add_assoc] :
    ∀ i ∈ List.range K,
      ((1 - F ((t2c1xL K t2c1).getD (K + i) XR.posInf) mu sd) -
        (1 - F ((t2c1xL K t2c1).getD (K + i + 1) XR.posInf) mu sd)) /
          (1 - F (XR.fin 0) mu sd) =
      (fun j => (1 - F ((t2c1xL K t2c1).getD (K + j) XR.posInf) mu sd) /
        (1 - F (XR.fin 0) mu sd)) i -
      (fun j => (1 - F ((t2c1xL K t2c1).getD (K + j) XR.posInf) mu sd) /
        (1 - F (XR.fin 0) mu sd)) (i + 1))]
  rw [sum_range_sub_telescope_rev
    (fun j => (1 - F ((t2c1xL K t2c1).getD (K + j) XR.posInf) mu sd) /
      (1 - F (XR.fin 0) mu sd)) K]
  have hmid : K + 0 = K := rfl
  simp only [hmid]
  rw [show K + K = 2 * K by omega]
  rw [t2c1xL_getD_mid K t2c1 hlen hK, t2c1xL_getD_last K t2c1 hlen hK, hpos]
  rw [div_self harea]
  simp

/-- Claim C2 (amended): for any count pair with `K ≥ 1` ratings and any
parameter vector (meta-d and `2K-2` criteria), the four reconstructed bin
probability vectors of `fit_meta_d_logL` (`prC_rS1`, `prI_rS1`, `prC_rS2`,
`prI_rS2`) each sum to exactly `1`, for every CDF capability `F` with limits
`0` at `-inf` and `1` at `+inf` whose value at the type-1 criterion is
strictly inside `(0,1)` under every distribution (so the four normalizing
areas cannot vanish). -/
theorem fit_meta_d_probs_sum_one {α : Type} [LinearOrderedField α]
    (F : XR α → α → α → α) (K : ℕ) (parameters : List α) (d1 t1c1 s : α)
    (hK : 1 ≤ K) (hlen : parameters.length = 2 * K - 1)
    (hneg : ∀ mu sd, F XR.negInf mu sd = 0) (hpos : ∀ mu sd, F XR.posInf mu sd = 1)
    (harea : ∀ mu sd, 0 < F (XR.fin 0) mu sd ∧ F (XR.fin 0) mu sd < 1) :
    (fitMetaDprobs F K parameters d1 t1c1 s).1.sum = 1 ∧
    (fitMetaDprobs F K parameters d1 t1c1 s).2.1.sum = 1 ∧
    (fitMetaDprobs F K parameters d1 t1c1 s).2.2.1.sum = 1 ∧
    (fitMetaDprobs F K parameters d1 t1c1 s).2.2.2.sum = 1 := by
  have hlen' : (parameters.drop 1).length = 2 * K - 2 := by
    simp [hlen]
    omega
  simp only [fitMetaDprobs]
  refine ⟨prRS1_sum F K _ _ _ hlen' hK (hneg _ _) (harea _ _).1.ne',
    prRS1_sum F K _ _ _ hlen' hK (hneg _ _) (harea _ _).1.ne',
    prRS2_sum F K _ _ _ hlen' hK (hpos _ _) (sub_ne_zero.mpr (harea _ _).2.ne'),
    prRS2_sum F K _ _ _ hlen' hK (hpos _ _) (sub_ne_zero.mpr (harea _ _).2.ne')⟩

/-- Witness for `fit_meta_d_probs_sum_one` at `K = 2`, parameter vector
`[0, -1, 1]`, with the interior-valued CDF `halfCdf` over `ℚ`. -/
theorem fit_meta_d_probs_sum_one_witness :
    ([(0 : ℚ), -1, 1].length = 2 * 2 - 1) ∧
    ((fitMetaDprobs halfCdf 2 [0, -1, 1] 1 0 1).1.sum = 1 ∧
    (fitMetaDprobs halfCdf 2 [0, -1, 1] 1 0 1).2.1.sum = 1 ∧
    (fitMetaDprobs halfCdf 2 [0, -1, 1] 1 0 1).2.2.1.sum = 1 ∧
    (fitMetaDprobs halfCdf 2 [0, -1, 1] 1 0 1).2.2.2.sum = 1) :=
  ⟨by norm_num,
    fit_meta_d_probs_sum_one halfCdf 2 [0, -1, 1] 1 0 1 (by norm_num) (by norm_num)
      (fun _ _ => rfl) (fun _ _ => rfl) (fun _ _ => by norm_num [halfCdf])⟩

/-- Claim C2 (counterexample): the claim fails for a CDF that is merely
monotone with limits `0` at `-inf` and `1` at `+inf`.  `stepCdf` is such a
function, the parameter vector `[0, -1, 1]` (`K = 2`) satisfies the ordering
constraint (`-1 - 1 <= -1e-5`) and the box bounds, yet the `prC_rS1`
probabilities sum to `0`, not `1`: the normalizing area `F(0)` vanishes, in
which numpy produces `nan` terms (embedded here as total field division). -/
theorem fit_meta_d_probs_counterexample :
    (∀ x y : XR ℚ, ∀ mu sd : ℚ, XR.le x y → stepCdf x mu sd ≤ stepCdf y mu sd) ∧
    (∀ mu sd : ℚ, stepCdf XR.negInf mu sd = 0) ∧
    (∀ mu sd : ℚ, stepCdf XR.posInf mu sd = 1) ∧
    ((-1 : ℚ) - 1 ≤ -(1 / 100000)) ∧
    ((-10 : ℚ) ≤ 0 ∧ (0 : ℚ) ≤ 10 ∧ (-20 : ℚ) ≤ -1 ∧ (-1 : ℚ) ≤ 0 ∧
      (0 : ℚ) ≤ 1 ∧ (1 : ℚ) ≤ 20) ∧
    (fitMetaDprobs stepCdf 2 [0, -1, 1] 1 0 1).1.sum ≠ 1 := by
  refine ⟨?_, fun _ _ => rfl, fun _ _ => rfl, by norm_num, by norm_num, ?_⟩
  · intro x y mu sd hxy
    cases x <;> cases y <;> simp [stepCdf, XR.le] at hxy ⊢ <;>
      split_ifs <;> linarith
  · norm_num [fitMetaDprobs, prRS1, prRS2, t2c1xL, stepCdf, constantCriterion,
      List.range_succ]

/-- Claim C5 (counterexample): on the spec's tabulation scenario
`stimID=[0,1,0,0,1,1,1,1]`, `response=[0,1,1,1,0,0,1,1]`, `rating=[1,2,3,4,4,3,2,1]`,
`nRatings=4`, padding disabled, `trials2counts` does not return the pair
`nR_S1 = [1,0,0,1,0,0,1,1]`, `nR_S2 = [0,0,1,1,0,1,0,1]` stated by the claim. -/
theorem trials2counts_example_ne_claimed :
    trials2counts [0, 1, 0, 0, 1, 1, 1, 1] [0, 1, 1, 1, 0, 0, 1, 1]
        [1, 2, 3, 4, 4, 3, 2, 1] 4 false none ≠
      Except.ok ([1, 0, 0, 1, 0, 0, 1, 1], [0, 0, 1, 1, 0, 1, 0, 1]) := by
  have h1 : nRS1core ((([0, 1, 0, 0, 1, 1, 1, 1] : List ℤ).zip
      (([0, 1, 1, 1, 0, 0, 1, 1] : List ℤ).zip
        ([1, 2, 3, 4, 4, 3, 2, 1] : List ℤ))).filter (inRange 4)) 4 =
      ([0, 0, 0, 1, 0, 0, 1, 1] : List ℕ) := by decide
  simp only [trials2counts]
  rw [if_neg (by decide)]
  simp only [Bool.false_eq_true, if_false, h1]
  norm_num

/-- Claim C5 (amended): on the spec's tabulation scenario, `trials2counts`
with padding disabled returns `nR_S1 = [0,0,0,1,0,0,1,1]` and
`nR_S2 = [1,1,0,0,1,2,0,0]`. -/
theorem trials2counts_example_eval :
    trials2counts [0, 1, 0, 0, 1, 1, 1, 1] [0, 1, 1, 1, 0, 0, 1, 1]
        [1, 2, 3, 4, 4, 3, 2, 1] 4 false none =
      Except.ok ([0, 0, 0, 1, 0, 0, 1, 1], [1, 1, 0, 0, 1, 2, 0, 0]) := by
  have h1 : nRS1core ((([0, 1, 0, 0, 1, 1, 1, 1] : List ℤ).zip
      (([0, 1, 1, 1, 0, 0, 1, 1] : List ℤ).zip
        ([1, 2, 3, 4, 4, 3, 2, 1] : List ℤ))).filter (inRange 4)) 4 =
      ([0, 0, 0, 1, 0, 0, 1, 1] : List ℕ) := by decide
  have h2 : nRS2core ((([0, 1, 0, 0, 1, 1, 1, 1] : List ℤ).zip
      (([0, 1, 1, 1, 0, 0, 1, 1] : List ℤ).zip
        ([1, 2, 3, 4, 4, 3, 2, 1] : List ℤ))).filter (inRange 4)) 4 =
      ([1, 1, 0, 0, 1, 2, 0, 0] : List ℕ) := by decide
  simp only [trials2counts]
  rw [if_neg (by decide)]
  simp only [Bool.false_eq_true, if_false, h1, h2]
  norm_num

/-- Claim C4: for `K ≥ 2` ratings (`nCriteria = 2K-1`), `fit_meta_d_MLE`
builds exactly `2K-3` linear inequality rows over the parameter vector
(meta-d then `2K-2` criteria), row `i` having `+1` at parameter index `i+1`
(criterion `i`), `-1` at index `i+2` (criterion `i+1`) and `0` elsewhere
(in particular at the meta-d index `0`), with upper bound `-1e-5` and lower
bound `-inf` per row, and box bounds `[-10,10]` for meta-d, `[-20,0]` for the
`K-1` criteria below the type-1 criterion and `[0,20]` for the `K-1`
criteria above. -/
theorem fit_meta_d_MLE_constraints {α : Type} [LinearOrderedField α] (K : ℕ) (hK : 2 ≤ K) :
    (constraintA (α := α) (2 * K - 1)).length = 2 * K - 3 ∧
    (∀ i, i < 2 * K - 3 → ((constraintA (α := α) (2 * K - 1)).getD i []).length = 2 * K - 1) ∧
    (∀ i j, i < 2 * K - 3 → j < 2 * K - 1 →
      ((constraintA (α := α) (2 * K - 1)).getD i []).getD j 0 =
        if j = i + 1 then 1 else if j = i + 2 then -1 else 0) ∧
    constraintUb (α := α) (2 * K - 1) = List.replicate (2 * K - 3) (-(1 / 100000)) ∧
    constraintLb (α := α) (2 * K - 1) = List.replicate (2 * K - 3) XR.negInf ∧
    paramLB (α := α) (2 * K - 1) =
      -10 :: (List.replicate (K - 1) (-20) ++ List.replicate (K - 1) 0) ∧
    paramUB (α := α) (2 * K - 1) =
      10 :: (List.replicate (K - 1) 0 ++ List.replicate (K - 1) 20) := by
  have h2 : 2 * K - 1 - 2 = 2 * K - 3 := by omega
  have hhalf : (2 * K - 1 - 1) / 2 = K - 1 := by omega
  refine ⟨?_, ?_, ?_, ?_, ?_, ?_, ?_⟩
  · simp [constraintA, h2]
  · intro i hi
    rw [constraintA, h2, getD_map_range _ [] hi]
    simp
    omega
  · intro i j hi hj
    rw [constraintA, h2, getD_map_range _ [] hi]
    rcases lt_or_ge j (i + 1) with hj1 | hj1
    · rw [List.getD_append _ _ _ _ (by simp; omega), List.getD_append _ _ _ _ (by simp; omega),
        getD_replicate_of_lt _ _ hj1]
      rw [if_neg (by omega), if_neg (by omega)]
    · rcases lt_or_ge j (i + 3) with hj2 | hj2
      · rw [List.getD_append _ _ _ _ (by simp; omega),
          List.getD_append_right _ _ _ _ (by simp; omega)]
        simp only [List.length_replicate]
        rcases Nat.eq_or_lt_of_le hj1 with he | hlt
        · rw [← he]
          simp [if_pos]
        · have : j = i + 2 := by omega
          subst this
          simp
      · rw [List.getD_append_right _ _ _ _ (by simp; omega)]
        rw [getD_replicate_of_lt _ _ (by simp; omega)]
        rw [if_neg (by omega), if_neg (by omega)]
  · simp [constraintUb, h2]
  · simp [constraintLb, h2]
  · simp [paramLB, hhalf]
  · simp [paramUB, hhalf]

/-- Witness for `fit_meta_d_MLE_constraints` at `K = 4` over `ℚ`. -/
theorem fit_meta_d_MLE_constraints_witness :
    2 ≤ 4 ∧
    ((constraintA (α := ℚ) (2 * 4 - 1)).length = 2 * 4 - 3 ∧
    (∀ i, i < 2 * 4 - 3 → ((constraintA (α := ℚ) (2 * 4 - 1)).getD i []).length = 2 * 4 - 1) ∧
    (∀ i j, i < 2 * 4 - 3 → j < 2 * 4 - 1 →
      ((constraintA (α := ℚ) (2 * 4 - 1)).getD i []).getD j 0 =
        if j = i + 1 then 1 else if j = i + 2 then -1 else 0) ∧
    constraintUb (α := ℚ) (2 * 4 - 1) = List.replicate (2 * 4 - 3) (-(1 / 100000)) ∧
    constraintLb (α := ℚ) (2 * 4 - 1) = List.replicate (2 * 4 - 3) XR.negInf ∧
    paramLB (α := ℚ) (2 * 4 - 1) =
      -10 :: (List.replicate (4 - 1) (-20) ++ List.replicate (4 - 1) 0) ∧
    paramUB (α := ℚ) (2 * 4 - 1) =
      10 :: (List.replicate (4 - 1) 0 ++ List.replicate (4 - 1) 20)) :=
  ⟨by norm_num, fit_meta_d_MLE_constraints 4 (by norm_num)⟩

/-- Claim C6 (code defect): with `hits=2, misses=0` the raw hit rate is `1`
and the code's substitution chain (`half_hit = 0.5*(hits+misses) = 1`, so
`1 ↦ 1-1 = 0 ↦ half_hit = 1`) leaves the rate at `1`, which is not strictly
inside `(0,1)`; the inverse CDF is then evaluated at `1` (where `norm.ppf` is
`+inf`), so `dprime(2,0,1,9) = ppf(1) - ppf(1/10)` is not finite.  The spec's
scenario `dprime(8,2,1,9) = ppf(4/5) - ppf(1/10)` does hold (no correction
triggered). -/
theorem dprime_half_count_bug :
    hitRateAdj (2 : ℚ) 0 = 1 ∧
    ¬(0 < hitRateAdj (2 : ℚ) 0 ∧ hitRateAdj (2 : ℚ) 0 < 1) ∧
    (∀ ppf : ℚ → ℚ, dprime 2 0 1 9 ppf = ppf 1 - ppf (1 / 10)) ∧
    (∀ ppf : ℚ → ℚ, dprime 8 2 1 9 ppf = ppf (4 / 5) - ppf (1 / 10)) := by
  refine ⟨by norm_num [hitRateAdj], by norm_num [hitRateAdj], fun ppf => ?_, fun ppf => ?_⟩
  · norm_num [dprime, hitRateAdj, faRateAdj]
  · norm_num [dprime, hitRateAdj, faRateAdj]

/-- Claim C8: when the packaged `da` is `0`, the `M_ratio` field is the IEEE
division-by-zero marker (`nan` when `meta_da` is also `0`, a signed infinity
otherwise) and in particular is not any finite value (never a silent `0`);
when `da ≠ 0`, `M_ratio = meta_da / da` and `M_diff = meta_da - da` exactly. -/
theorem packageFit_Mratio {α : Type} [LinearOrderedField α] (sqrtf : α → α)
    (s d1 meta_d1 : α) :
    (daFit sqrtf s d1 = 0 →
      (∀ r : α, (packageFit sqrtf s d1 meta_d1).Mratio ≠ .fin r) ∧
      ((packageFit sqrtf s d1 meta_d1).Mratio = .nan ∨
        ∃ b, (packageFit sqrtf s d1 meta_d1).Mratio = .inf b)) ∧
    (daFit sqrtf s d1 ≠ 0 →
      (packageFit sqrtf s d1 meta_d1).Mratio =
        .fin (metaDaFit sqrtf s meta_d1 / daFit sqrtf s d1) ∧
      (packageFit sqrtf s d1 meta_d1).Mdiff =
        metaDaFit sqrtf s meta_d1 - daFit sqrtf s d1) := by
  constructor
  · intro h
    simp only [packageFit, fdiv, h, if_pos rfl]
    constructor
    · intro r
      split_ifs <;> simp
    · split_ifs <;> simp
  · intro h
    simp [packageFit, fdiv, if_neg h]

/-- Witness for `packageFit_Mratio`, at `sqrtf = id`, `s = 1` over `ℚ`:
`(d1, meta_d1) = (0, 1)` gives `da = 0` and a non-finite ratio, while
`(d1, meta_d1) = (1, 2)` gives `da ≠ 0` and the exact ratio and difference. -/
theorem packageFit_Mratio_witness :
    ((∀ r : ℚ, (packageFit id 1 0 1).Mratio ≠ .fin r) ∧
      ((packageFit (id : ℚ → ℚ) 1 0 1).Mratio = .nan ∨
        ∃ b, (packageFit (id : ℚ → ℚ) 1 0 1).Mratio = .inf b)) ∧
    ((packageFit (id : ℚ → ℚ) 1 1 2).Mratio =
        .fin (metaDaFit id 1 2 / daFit id 1 1) ∧
      (packageFit (id : ℚ → ℚ) 1 1 2).Mdiff =
        metaDaFit id 1 2 - daFit id 1 1) :=
  ⟨(packageFit_Mratio id 1 0 1).1 (by norm_num [daFit]),
    (packageFit_Mratio id 1 1 2).2 (by norm_num [daFit])⟩

/-- Claim C3: for every parameter vector and every input object (any counts,
any criteria, any injected CDF and logarithm), `fit_meta_d_logL` returns a
finite value; moreover whenever the raw log-likelihood is infinite or `nan`,
the returned value is exactly `-(-1e300) = 1e300`. -/
theorem fit_meta_d_logL_finite {α : Type} [LinearOrderedField α]
    (F : XR α → α → α → α) (logf : α → α) (parameters nR_S1 nR_S2 : List α)
    (nRatings : ℕ) (d1 t1c1 s : α) :
    (∃ r : α, fit_meta_d_logL F logf parameters nR_S1 nR_S2 nRatings d1 t1c1 s =
      .fin r) ∧
    ((xisinf (metaDlogLraw F logf parameters nR_S1 nR_S2 nRatings d1 t1c1 s) ||
        xisnan (metaDlogLraw F logf parameters nR_S1 nR_S2 nRatings d1 t1c1 s)) = true →
      fit_meta_d_logL F logf parameters nR_S1 nR_S2 nRatings d1 t1c1 s =
        .fin ((10 : α) ^ 300)) := by
  cases h : metaDlogLraw F logf parameters nR_S1 nR_S2 nRatings d1 t1c1 s with
  | fin r =>
    constructor
    · exact ⟨-r, by simp [fit_meta_d_logL, h, xisinf, xisnan, xneg]⟩
    · intro hg
      simp [xisinf, xisnan] at hg
  | inf b =>
    constructor
    · exact ⟨(10 : α) ^ 300, by simp [fit_meta_d_logL, h, xisinf, xisnan, xneg]⟩
    · intro _
      simp [fit_meta_d_logL, h, xisinf, xisnan, xneg]
  | nan =>
    constructor
    · exact ⟨(10 : α) ^ 300, by simp [fit_meta_d_logL, h, xisinf, xisnan, xneg]⟩
    · intro _
      simp [fit_meta_d_logL, h, xisinf, xisnan, xneg]

/-- Witness for `fit_meta_d_logL_finite`: with the degenerate constant-zero
CDF every bin probability is the IEEE quotient `0/0 = nan`, the raw
log-likelihood is non-finite, and the guard makes the returned value the
finite `1e300`. -/
theorem fit_meta_d_logL_finite_witness :
    (xisinf (metaDlogLraw (fun _ _ _ => (0 : ℚ)) id [0] [1, 1] [1, 1] 1 1 0 1) ||
      xisnan (metaDlogLraw (fun _ _ _ => (0 : ℚ)) id [0] [1, 1] [1, 1] 1 1 0 1)) = true ∧
    fit_meta_d_logL (fun _ _ _ => (0 : ℚ)) id [0] [1, 1] [1, 1] 1 1 0 1 =
      .fin ((10 : ℚ) ^ 300) := by
  have hraw : metaDlogLraw (fun _ _ _ => (0 : ℚ)) id [0] [1, 1] [1, 1] 1 1 0 1 =
      XFloat.nan := by
    norm_num [metaDlogLraw, metaDlogLterms, t2c1xL, constantCriterion,
      List.range_succ, XFloat.fdiv, XFloat.xlog, XFloat.xmul, XFloat.xadd]
  exact ⟨by rw [hraw]; rfl,
    (fit_meta_d_logL_finite (fun _ _ _ => (0 : ℚ)) id [0] [1, 1] [1, 1] 1 1 0 1).2
      (by rw [hraw]; rfl)⟩

theorem xadd_fin {α : Type} [LinearOrderedField α] (a b : α) :
    xadd (.fin a) (.fin b) = .fin (a + b) := rfl

theorem xsub_fin {α : Type} [LinearOrderedField α] (a b : α) :
    xsub (.fin a) (.fin b) = .fin (a - b) := by
  simp [xsub, xadd, xneg, sub_eq_add_neg]

theorem xmul_fin {α : Type} [LinearOrderedField α] (a b : α) :
    xmul (.fin a) (.fin b) = .fin (a * b) := rfl

theorem xdiv_fin {α : Type} [LinearOrderedField α] (a b : α) (hb : b ≠ 0) :
    xdiv (.fin a) (.fin b) = .fin (a / b) := by
  simp [xdiv, fdiv, hb]

theorem getD_mem_of_lt {β : Type} (l : List β) (i : ℕ) (d : β) (h : i < l.length) :
    l.getD i d ∈ l := by
  rw [List.getD_eq_getElem _ _ h]
  exact List.getElem_mem _

/-- Claim C7 (counterexample): for `nR_S1 = [2,1,1,0]`, `nR_S2 = [0,1,1,2]`
(`K = 2`), the first cumulative hit rate computed by `fit_meta_d_MLE` is
exactly `1`, and with an inverse CDF that (like `norm.ppf`) is finite
strictly inside `(0,1)` but infinite at the boundaries, the second component
of the initial guess is `nan` — no boundary-adjusted rate is substituted, so
not every component of the initial guess is finite. -/
theorem metaMLEguess_counterexample :
    (ratingHR ([0, 1, 1, 2] : List ℚ) 2).getD 0 0 = 1 ∧
    (∀ p : ℚ, 0 < p → p < 1 → ∃ r, ppfStep p = .fin r) ∧
    (metaMLEguess ppfStep [2, 1, 1, 0] [0, 1, 1, 2] 2 1).getD 1 (.fin 0) = XFloat.nan := by
  refine ⟨by norm_num [ratingHR, List.range_succ], ?_, ?_⟩
  · intro p h0 h1
    exact ⟨0, by simp [ppfStep, not_le.mpr h0, not_le.mpr h1]⟩
  · norm_num [metaMLEguess, metaMLEd1, metaMLEc1, t2Index, ratingHR, ratingFAR,
      List.range_succ, ppfStep, XFloat.xadd, XFloat.xmul, XFloat.xsub, XFloat.xneg,
      XFloat.xdiv, XFloat.fdiv, List.filter]

/-- Claim C7 (amended): the initial-estimate step applies the inverse CDF to
the raw cumulative rates with no boundary adjustment; every component of the
initial guess is finite provided every cumulative hit and false-alarm rate
lies strictly inside `(0,1)` (and the resulting `d1` is nonzero, so that the
constant-criterion offset `meta_d1*(t1c1/d1)` is finite), for any inverse CDF
that is finite strictly inside `(0,1)`. -/
theorem metaMLEguess_no_adjustment {α : Type} [LinearOrderedField α]
    (fninv : α → XFloat α) (nR_S1 nR_S2 : List α) (K : ℕ) (s : α)
    (hK : 1 ≤ K)
    (hfin : ∀ p : α, 0 < p → p < 1 → ∃ r, fninv p = .fin r)
    (hHR : ∀ x ∈ ratingHR nR_S2 K, 0 < x ∧ x < 1)
    (hFAR : ∀ x ∈ ratingFAR nR_S1 K, 0 < x ∧ x < 1)
    (hd1 : ∀ r, metaMLEd1 fninv nR_S1 nR_S2 K s = .fin r → r ≠ 0) :
    ∀ g ∈ metaMLEguess fninv nR_S1 nR_S2 K s, ∃ r, g = .fin r := by
  have hlenHR : (ratingHR nR_S2 K).length = 2 * K - 1 := by simp [ratingHR]
  have hlenFAR : (ratingFAR nR_S1 K).length = 2 * K - 1 := by simp [ratingFAR]
  have hHRfin : ∀ k, k < 2 * K - 1 → ∃ r, fninv ((ratingHR nR_S2 K).getD k 0) = .fin r := by
    intro k hk
    have hmem := getD_mem_of_lt (ratingHR nR_S2 K) k 0 (by rw [hlenHR]; exact hk)
    exact hfin _ (hHR _ hmem).1 (hHR _ hmem).2
  have hFARfin : ∀ k, k < 2 * K - 1 → ∃ r, fninv ((ratingFAR nR_S1 K).getD k 0) = .fin r := by
    intro k hk
    have hmem := getD_mem_of_lt (ratingFAR nR_S1 K) k 0 (by rw [hlenFAR]; exact hk)
    exact hfin _ (hFAR _ hmem).1 (hFAR _ hmem).2
  have ht1 : K - 1 < 2 * K - 1 := by omega
  have hd1fin : ∃ r, metaMLEd1 fninv nR_S1 nR_S2 K s = .fin r := by
    obtain ⟨r1, hr1⟩ := hHRfin (K - 1) ht1
    obtain ⟨r2, hr2⟩ := hFARfin (K - 1) ht1
    exact ⟨1 / s * r1 - r2, by rw [metaMLEd1, hr1, hr2, xmul_fin, xsub_fin]⟩
  have hc1fin : ∀ k, k < 2 * K - 1 →
      ∃ r, (metaMLEc1 fninv nR_S1 nR_S2 K s).getD k (.fin 0) = .fin r := by
    intro k hk
    obtain ⟨r1, hr1⟩ := hHRfin k hk
    obtain ⟨r2, hr2⟩ := hFARfin k hk
    refine ⟨-1 / (1 + s) * (r1 + r2), ?_⟩
    rw [metaMLEc1, getD_map_range _ _ hk, hr1, hr2, xadd_fin, xmul_fin]
  obtain ⟨rd, hrd⟩ := hd1fin
  have hrd0 : rd ≠ 0 := hd1 rd hrd
  obtain ⟨rt1, hrt1⟩ := hc1fin (K - 1) ht1
  have hcc : ∃ r, xmul (metaMLEd1 fninv nR_S1 nR_S2 K s)
      (xdiv ((metaMLEc1 fninv nR_S1 nR_S2 K s).getD (K - 1) (.fin 0))
        (metaMLEd1 fninv nR_S1 nR_S2 K s)) = .fin r := by
    refine ⟨rd * (rt1 / rd), ?_⟩
    rw [hrd, hrt1, xdiv_fin _ _ hrd0, xmul_fin]
  obtain ⟨rc, hrc⟩ := hcc
  intro g hg
  rw [metaMLEguess] at hg
  rcases List.mem_cons.mp hg with hg1 | hg2
  · exact ⟨rd, by rw [hg1, hrd]⟩
  · obtain ⟨c, hc, hgc⟩ := List.mem_map.mp hg2
    obtain ⟨j, hj, hcj⟩ := List.mem_map.mp hc
    have hjlt : j < 2 * K - 1 := by
      rw [t2Index] at hj
      exact List.mem_range.mp (List.mem_filter.mp hj).1
    obtain ⟨rj, hrj⟩ := hc1fin j hjlt
    refine ⟨rj - rc, ?_⟩
    rw [← hgc, ← hcj, hrj, hrc, xsub_fin]

/-- Witness for `metaMLEguess_no_adjustment`: `nR_S1 = [3,1,1,1]`,
`nR_S2 = [1,1,1,3]`, `K = 2`, `s = 1`, with the interior-finite inverse CDF
`ppfInterior`; all cumulative rates are strictly inside `(0,1)` and
`d1 = 1/3 ≠ 0`. -/
theorem metaMLEguess_no_adjustment_witness :
    (1 ≤ 2) ∧
    (∀ g ∈ metaMLEguess ppfInterior [3, 1, 1, 1] [1, 1, 1, 3] 2 1, ∃ r, g = .fin r) :=
  ⟨by norm_num,
    metaMLEguess_no_adjustment ppfInterior [3, 1, 1, 1] [1, 1, 1, 3] 2 1 (by norm_num)
      (fun p h0 h1 => ⟨p, by simp [ppfInterior, h0, h1]⟩)
      (by norm_num [ratingHR, List.range_succ])
      (by norm_num [ratingFAR, List.range_succ])
      (by
        intro r h
        rw [show metaMLEd1 ppfInterior [3, 1, 1, 1] [1, 1, 1, 3] 2 1 = XFloat.fin (1 / 3) from by
          norm_num [metaMLEd1, ratingHR, ratingFAR, List.range_succ, ppfInterior,
            XFloat.xsub, XFloat.xadd, XFloat.xmul, XFloat.xneg]] at h
        simp at h
        rw [← h]
        norm_num)⟩

theorem sum_map_add {β : Type} (l : List β) (f g : β → ℕ) :
    (l.map (fun x => f x + g x)).sum = (l.map f).sum + (l.map g).sum := by
  induction l with
  | nil => simp
  | cons x l ih =>
    simp [ih]
    omega

theorem ascRatings_succ (K : ℕ) : ascRatings (K + 1) = ascRatings K ++ [(K : ℤ) + 1] := by
  unfold ascRatings
  rw [List.range_succ, List.map_append]
  simp

theorem descRatings_succ (K : ℕ) : descRatings (K + 1) = ((K : ℤ) + 1) :: descRatings K := by
  unfold descRatings
  rw [List.range_succ_eq_map]
  simp only [List.map_cons, List.map_map]
  rw [show ((K : ℤ) + 1) = ↑(K + 1) - ↑(0 : ℕ) by push_cast; ring]
  congr 1
  refine List.map_congr_left fun k _ => ?_
  simp only [Function.comp_apply]
  push_cast
  ring

theorem mem_ascRatings {K : ℕ} {r : ℤ} : r ∈ ascRatings K ↔ 1 ≤ r ∧ r ≤ (K : ℤ) := by
  simp only [ascRatings, List.mem_map, List.mem_range]
  constructor
  · rintro ⟨k, hk, rfl⟩
    omega
  · rintro ⟨h1, h2⟩
    exact ⟨(r - 1).toNat, by omega, by omega⟩

theorem descRatings_eq_reverse (K : ℕ) : descRatings K = (ascRatings K).reverse := by
  induction K with
  | zero => rfl
  | succ K ih => rw [descRatings_succ, ascRatings_succ, List.reverse_append, ih]; rfl

theorem sum_map_descRatings (K : ℕ) (f : ℤ → ℕ) :
    ((descRatings K).map f).sum = ((ascRatings K).map f).sum := by
  rw [descRatings_eq_reverse, List.map_reverse, List.sum_reverse]

theorem sum_indicator_asc (K : ℕ) (rt : ℤ) (h : 1 ≤ rt ∧ rt ≤ (K : ℤ)) :
    ((ascRatings K).map (fun r => if rt = r then (1 : ℕ) else 0)).sum = 1 := by
  induction K with
  | zero => omega
  | succ K ih =>
    rw [ascRatings_succ, List.map_append, List.sum_append]
    by_cases hrt : rt = (K : ℤ) + 1
    · have hpre : ((ascRatings K).map (fun r => if rt = r then (1 : ℕ) else 0)).sum = 0 := by
        apply List.sum_eq_zero
        intro x hx
        obtain ⟨r, hr, hxr⟩ := List.mem_map.mp hx
        have := mem_ascRatings.mp hr
        rw [← hxr, if_neg (by omega)]
      rw [hpre]
      simp [hrt]
    · rw [ih ⟨h.1, by omega⟩]
      simp [hrt]

theorem sum_indicator_ratings (K : ℕ) (t : ℤ × ℤ × ℤ) (s0 rp0 : ℤ)
    (hr : 1 ≤ t.2.2 ∧ t.2.2 ≤ (K : ℤ)) :
    ((ascRatings K).map
      (fun r => if t.1 = s0 ∧ t.2.1 = rp0 ∧ t.2.2 = r then (1 : ℕ) else 0)).sum =
      if t.1 = s0 ∧ t.2.1 = rp0 then 1 else 0 := by
  by_cases hs : t.1 = s0 ∧ t.2.1 = rp0
  · rw [if_pos hs]
    rw [List.map_congr_left (fun r _ => by
      simp only [hs.1, hs.2, true_and] :
      ∀ r ∈ ascRatings K,
        (if t.1 = s0 ∧ t.2.1 = rp0 ∧ t.2.2 = r then (1 : ℕ) else 0) =
          if t.2.2 = r then (1 : ℕ) else 0)]
    exact sum_indicator_asc K t.2.2 hr
  · rw [if_neg hs]
    apply List.sum_eq_zero
    intro x hx
    obtain ⟨r, _, hxr⟩ := List.mem_map.mp hx
    rw [← hxr, if_neg (by tauto)]

theorem countsFor_sum (l : List (ℤ × ℤ × ℤ)) (K : ℕ) (s0 : ℤ)
    (hl : ∀ t ∈ l, inRange K t = true) :
    ((descRatings K).map (countsFor l s0 0) ++ (ascRatings K).map (countsFor l s0 1)).sum =
      l.countP (fun t => decide (t.1 = s0)) := by
  induction l with
  | nil =>
    rw [List.sum_append,
      show countsFor ([] : List (ℤ × ℤ × ℤ)) s0 0 = (fun _ => 0) from
        funext fun r => by simp [countsFor],
      show countsFor ([] : List (ℤ × ℤ × ℤ)) s0 1 = (fun _ => 0) from
        funext fun r => by simp [countsFor]]
    simp
  | cons t l ih =>
    have hl' : ∀ u ∈ l, inRange K u = true := fun u hu => hl u (List.mem_cons_of_mem _ hu)
    have ht : inRange K t = true := hl t (List.mem_cons_self _ _)
    have htP : (t.1 = 0 ∨ t.1 = 1) ∧ (t.2.1 = 0 ∨ t.2.1 = 1) ∧
        1 ≤ t.2.2 ∧ t.2.2 ≤ (K : ℤ) := by
      simpa [inRange] using ht
    have hcons : ∀ rp0 r, countsFor (t :: l) s0 rp0 r =
        countsFor l s0 rp0 r + (if t.1 = s0 ∧ t.2.1 = rp0 ∧ t.2.2 = r then 1 else 0) := by
      intro rp0 r
      simp [countsFor, List.countP_cons]
    have hdesc : ((descRatings K).map (countsFor (t :: l) s0 0)).sum =
        ((descRatings K).map (countsFor l s0 0)).sum +
          (if t.1 = s0 ∧ t.2.1 = 0 then 1 else 0) := by
      rw [show countsFor (t :: l) s0 0 = (fun r => countsFor l s0 0 r +
        (if t.1 = s0 ∧ t.2.1 = 0 ∧ t.2.2 = r then 1 else 0)) from funext (hcons 0)]
      rw [sum_map_add]
      rw [sum_map_descRatings K (fun r => if t.1 = s0 ∧ t.2.1 = 0 ∧ t.2.2 = r then 1 else 0)]
      rw [sum_indicator_ratings K t s0 0 ⟨htP.2.2.1, htP.2.2.2⟩]
    have hasc : ((ascRatings K).map (countsFor (t :: l) s0 1)).sum =
        ((ascRatings K).map (countsFor l s0 1)).sum +
          (if t.1 = s0 ∧ t.2.1 = 1 then 1 else 0) := by
      rw [show countsFor (t :: l) s0 1 = (fun r => countsFor l s0 1 r +
        (if t.1 = s0 ∧ t.2.1 = 1 ∧ t.2.2 = r then 1 else 0)) from funext (hcons 1)]
      rw [sum_map_add]
      rw [sum_indicator_ratings K t s0 1 ⟨htP.2.2.1, htP.2.2.2⟩]
    have hmerge : (if t.1 = s0 ∧ t.2.1 = 0 then (1 : ℕ) else 0) +
        (if t.1 = s0 ∧ t.2.1 = 1 then 1 else 0) =
        if t.1 = s0 then 1 else 0 := by
      rcases htP.2.1 with h | h <;> by_cases hs : t.1 = s0 <;> simp [h, hs]
    have ihs := ih hl'
    rw [List.sum_append] at ihs ⊢
    rw [hdesc, hasc, List.countP_cons]
    simp only [decide_eq_true_eq]
    omega

/-- Claim C9: with padding disabled, the two vectors returned by
`trials2counts` conserve trial counts: `sum nR_S1` is the number of zipped
in-range records with `stimID = 0` and `sum nR_S2` the number with
`stimID = 1`; out-of-range records are counted in neither. -/
theorem trials2counts_conservation (stimID response rating : List ℤ) (K : ℕ)
    (pa : Option ℚ) (a b : List ℚ)
    (h : trials2counts stimID response rating K false pa = Except.ok (a, b)) :
    a.sum = ((stimID.zip (response.zip rating)).countP
      (fun t => inRange K t && decide (t.1 = 0)) : ℕ) ∧
    b.sum = ((stimID.zip (response.zip rating)).countP
      (fun t => inRange K t && decide (t.1 = 1)) : ℕ) := by
  rw [trials2counts] at h
  by_cases hc : ¬(stimID.length = response.length) ∧ (stimID.length = rating.length)
  · rw [if_pos hc] at h
    exact absurd h (by simp)
  · rw [if_neg hc] at h
    simp only [Bool.false_eq_true, if_false, Except.ok.injEq, Prod.mk.injEq] at h
    obtain ⟨ha, hb⟩ := h
    have hfilt : ∀ t ∈ (stimID.zip (response.zip rating)).filter (inRange K),
        inRange K t = true := fun t ht => List.of_mem_filter ht
    constructor
    · rw [← ha]
      rw [show (fun n : ℕ => (n : ℚ)) = (Nat.cast : ℕ → ℚ) from rfl]
      rw [← Nat.cast_list_sum]
      rw [nRS1core, countsFor_sum _ K 0 hfilt, List.countP_filter]
      rw [show (fun t : ℤ × ℤ × ℤ => decide (t.1 = 0) && inRange K t) =
        (fun t : ℤ × ℤ × ℤ => inRange K t && decide (t.1 = 0)) from
        funext fun t => Bool.and_comm _ _]
    · rw [← hb]
      rw [show (fun n : ℕ => (n : ℚ)) = (Nat.cast : ℕ → ℚ) from rfl]
      rw [← Nat.cast_list_sum]
      rw [nRS2core, countsFor_sum _ K 1 hfilt, List.countP_filter]
      rw [show (fun t : ℤ × ℤ × ℤ => decide (t.1 = 1) && inRange K t) =
        (fun t : ℤ × ℤ × ℤ => inRange K t && decide (t.1 = 1)) from
        funext fun t => Bool.and_comm _ _]

/-- Witness for `trials2counts_conservation` on the spec's tabulation
scenario. -/
theorem trials2counts_conservation_witness :
    (trials2counts [0, 1, 0, 0, 1, 1, 1, 1] [0, 1, 1, 1, 0, 0, 1, 1]
        [1, 2, 3, 4, 4, 3, 2, 1] 4 false none =
      Except.ok ([0, 0, 0, 1, 0, 0, 1, 1], [1, 1, 0, 0, 1, 2, 0, 0])) ∧
    ([(0 : ℚ), 0, 0, 1, 0, 0, 1, 1].sum =
      ((([0, 1, 0, 0, 1, 1, 1, 1] : List ℤ).zip
        (([0, 1, 1, 1, 0, 0, 1, 1] : List ℤ).zip
          ([1, 2, 3, 4, 4, 3, 2, 1] : List ℤ))).countP
        (fun t => inRange 4 t && decide (t.1 = 0)) : ℕ)) ∧
    ([(1 : ℚ), 1, 0, 0, 1, 2, 0, 0].sum =
      ((([0, 1, 0, 0, 1, 1, 1, 1] : List ℤ).zip
        (([0, 1, 1, 1, 0, 0, 1, 1] : List ℤ).zip
          ([1, 2, 3, 4, 4, 3, 2, 1] : List ℤ))).countP
        (fun t => inRange 4 t && decide (t.1 = 1)) : ℕ)) := by
  have h : trials2counts [0, 1, 0, 0, 1, 1, 1, 1] [0, 1, 1, 1, 0, 0, 1, 1]
      [1, 2, 3, 4, 4, 3, 2, 1] 4 false none =
      Except.ok ([0, 0, 0, 1, 0, 0, 1, 1], [1, 1, 0, 0, 1, 2, 0, 0]) := by
    have h1 : nRS1core ((([0, 1, 0, 0, 1, 1, 1, 1] : List ℤ).zip
        (([0, 1, 1, 1, 0, 0, 1, 1] : List ℤ).zip
          ([1, 2, 3, 4, 4, 3, 2, 1] : List ℤ))).filter (inRange 4)) 4 =
        ([0, 0, 0, 1, 0, 0, 1, 1] : List ℕ) := by decide
    have h2 : nRS2core ((([0, 1, 0, 0, 1, 1, 1, 1] : List ℤ).zip
        (([0, 1, 1, 1, 0, 0, 1, 1] : List ℤ).zip
          ([1, 2, 3, 4, 4, 3, 2, 1] : List ℤ))).filter (inRange 4)) 4 =
        ([1, 1, 0, 0, 1, 2, 0, 0] : List ℕ) := by decide
    simp only [trials2counts]
    rw [if_neg (by decide)]
    simp only [Bool.false_eq_true, if_false, h1, h2]
    norm_num
  exact ⟨h, (trials2counts_conservation _ _ _ _ _ _ _ h).1,
    (trials2counts_conservation _ _ _ _ _ _ _ h).2⟩

/-- Claim C10: `trials2counts` raises its length-validation error exactly
when `len stimID ≠ len response` while `len stimID = len rating`; in every
other length configuration no error is raised and the result equals the
result on the inputs truncated to the shortest of the three sequences
(records beyond it are silently ignored, through `zip` truncation). -/
theorem trials2counts_length_check (stimID response rating : List ℤ) (K : ℕ)
    (pc : Bool) (pa : Option ℚ) :
    (isErr (trials2counts stimID response rating K pc pa) = true ↔
      (stimID.length ≠ response.length ∧ stimID.length = rating.length)) ∧
    (¬(stimID.length ≠ response.length ∧ stimID.length = rating.length) →
      trials2counts stimID response rating K pc pa =
        trials2counts
          (stimID.take (min stimID.length (min response.length rating.length)))
          (response.take (min stimID.length (min response.length rating.length)))
          (rating.take (min stimID.length (min response.length rating.length)))
          K pc pa) := by
  constructor
  · rw [trials2counts]
    by_cases hc : ¬(stimID.length = response.length) ∧ (stimID.length = rating.length)
    · rw [if_pos hc]
      simp only [isErr, true_iff]
      exact hc
    · rw [if_neg hc]
      constructor
      · intro habs
        cases pc <;> simp [isErr] at habs
      · intro hcond
        exact absurd hcond hc
  · intro hnc
    have hnc' : ¬(¬(stimID.length = response.length) ∧ stimID.length = rating.length) := hnc
    have hms : min stimID.length (min response.length rating.length) ≤ stimID.length :=
      Nat.min_le_left _ _
    have hmr : min stimID.length (min response.length rating.length) ≤ response.length :=
      le_trans (Nat.min_le_right _ _) (Nat.min_le_left _ _)
    have hmg : min stimID.length (min response.length rating.length) ≤ rating.length :=
      le_trans (Nat.min_le_right _ _) (Nat.min_le_right _ _)
    have hrec : (stimID.take (min stimID.length (min response.length rating.length))).zip
        ((response.take (min stimID.length (min response.length rating.length))).zip
          (rating.take (min stimID.length (min response.length rating.length)))) =
        stimID.zip (response.zip rating) := by
      have hlen : (stimID.zip (response.zip rating)).length =
          min stimID.length (min response.length rating.length) := by
        simp [List.length_zip]
      rw [List.zip_eq_zipWith, List.zip_eq_zipWith, ← List.take_zipWith, ← List.take_zipWith]
      rw [← List.zip_eq_zipWith, ← List.zip_eq_zipWith]
      exact List.take_of_length_le (le_of_eq hlen)
    have htrunc : ¬(¬((stimID.take (min stimID.length (min response.length rating.length))).length =
          (response.take (min stimID.length (min response.length rating.length))).length) ∧
        (stimID.take (min stimID.length (min response.length rating.length))).length =
          (rating.take (min stimID.length (min response.length rating.length))).length) := by
      intro h
      apply h.1
      rw [List.length_take, List.length_take]
      omega
    rw [trials2counts, trials2counts]
    rw [if_neg hnc']
    rw [if_neg htrunc]
    rw [hrec]

/-- Witness for `trials2counts_length_check`: `stimID` has length 2,
`response` length 1, `rating` length 3 — a length mismatch that does not
trigger the error; the result equals that of the inputs truncated to one
record. -/
theorem trials2counts_length_check_witness :
    ¬(([0, 0] : List ℤ).length ≠ ([0] : List ℤ).length ∧
      ([0, 0] : List ℤ).length = ([1, 1, 1] : List ℤ).length) ∧
    trials2counts [0, 0] [0] [1, 1, 1] 2 false none =
      trials2counts
        (([0, 0] : List ℤ).take (min ([0, 0] : List ℤ).length
          (min ([0] : List ℤ).length ([1, 1, 1] : List ℤ).length)))
        (([0] : List ℤ).take (min ([0, 0] : List ℤ).length
          (min ([0] : List ℤ).length ([1, 1, 1] : List ℤ).length)))
        (([1, 1, 1] : List ℤ).take (min ([0, 0] : List ℤ).length
          (min ([0] : List ℤ).length ([1, 1, 1] : List ℤ).length)))
        2 false none :=
  ⟨by decide, (trials2counts_length_check [0, 0] [0] [1, 1, 1] 2 false none).2 (by decide)⟩
